import Mathlib

/-!
Verification development for the `refined_engine` trading connector.

Each definition below is a shallow embedding of a function of the Python
source (`src/engine.py`, `src/adapter.py`, `src/ws_client.py`,
`src/models.py`, `src/config.py`).  Python floats are embedded as exact
rationals (`ℚ`), Python ints as `ℤ`, Python dicts as association lists in
insertion order, and fallible calls as `Except`.  The doc comment of each
definition names the source function it embeds.
-/

namespace RefinedEngine

/-! ### Python dict primitives

A Python `dict` is embedded as an association list in insertion order:
inserting an existing key updates the value in place, a fresh key is
appended at the end.  This mirrors CPython dict semantics for the
operations the engine uses (`d[k] = v`, `d.pop(k, None)`, comprehension,
iteration order). -/

/-- Embedding of `d[k] = v` on a Python dict held as an association list. -/
def dinsert {α β : Type} [BEq α] (m : List (α × β)) (k : α) (v : β) : List (α × β) :=
  if m.any (fun kv => kv.1 == k) then
    m.map (fun kv => if kv.1 == k then (k, v) else kv)
  else
    m ++ [(k, v)]

/-- Embedding of a Python dict comprehension over a list of pairs:
later pairs with the same key overwrite earlier ones. -/
def dictOfPairs {α β : Type} [BEq α] (raw : List (α × β)) : List (α × β) :=
  raw.foldl (fun m kv => dinsert m kv.1 kv.2) []

/-- Embedding of `d.pop(k, None)` on a Python dict. -/
def dpop {α β : Type} [BEq α] (m : List (α × β)) (k : α) : List (α × β) :=
  m.filter (fun kv => kv.1 != k)

/-- The keys of the association list are pairwise distinct (true of every
list that embeds a Python dict). -/
def NodupKeys {α β : Type} (m : List (α × β)) : Prop :=
  m.Pairwise (fun a b => a.1 ≠ b.1)

/-! ### Order book (`models.OrderbookLevel` / `models.OrderbookSnapshot`,
`WSClient._handle_orderbook`, `PhemexEngine._on_orderbook`)

The engine's order-book handler has three defects that shape its real
behaviour, all modelled below rather than repaired: the name
`OrderbookLevel` is never imported in `engine.py`; `asks`/`bids` are
read-only properties of the slots dataclass `OrderbookSnapshot`; and the
handler reads the dict keys `orderbook_p` / `timestamp`, which the WS
parse layer never supplies. -/

/-- Embedding of `models.OrderbookLevel` (defined in `models.py`; the
name is never imported into `engine.py`). -/
structure Level where
  price : ℚ
  size : ℚ
  deriving Repr, DecidableEq

/-- Price-to-size map of one book side (`ask_map` / `bid_map`). -/
abbrev PairMap := List (ℚ × ℚ)

lemma nodupKeys_dinsert {α β : Type} [BEq α] [LawfulBEq α] {m : List (α × β)} (k : α) (v : β)
    (h : NodupKeys m) : NodupKeys (dinsert m k v) := by
  unfold dinsert
  by_cases hany : m.any (fun kv => kv.1 == k) = true
  · rw [if_pos hany]
    have hf : ∀ kv : α × β, (if kv.1 == k then (k, v) else kv).1 = kv.1 := by
      intro kv
      by_cases hk : (kv.1 == k) = true
      · rw [if_pos hk]; exact (eq_of_beq hk).symm
      · rw [if_neg hk]
    unfold NodupKeys at h ⊢
    rw [List.pairwise_map]
    exact h.imp (fun {a b} hab => by rw [hf a, hf b]; exact hab)
  · rw [if_neg hany]
    unfold NodupKeys at h ⊢
    rw [List.pairwise_append]
    refine ⟨h, List.pairwise_singleton _ _, ?_⟩
    intro a ha b hb
    have hb' : b = (k, v) := by simpa using hb
    subst hb'
    intro hak
    apply hany
    rw [List.any_eq_true]
    exact ⟨a, ha, by simpa using hak⟩

/-- Embedding of `models.OrderbookSnapshot` as declared (a slots
dataclass): the price maps and `timestamp` are assignable fields, while
`asks` / `bids` are read-only properties backed by the private caches
`_asks_cache` / `_bids_cache` and the `_dirty` flag. -/
structure BookState where
  askMap : PairMap
  bidMap : PairMap
  asksCache : List Level
  bidsCache : List Level
  dirty : Bool
  timestamp : ℤ
  deriving Repr, DecidableEq

/-- `OrderbookSnapshot(symbol=symbol)` as built in `PhemexEngine.__init__`:
empty maps, empty caches, `_dirty = True`. -/
def emptyBookState : BookState :=
  { askMap := [], bidMap := [], asksCache := [], bidsCache := [],
    dirty := true, timestamp := 0 }

/-- Key order of `sorted(map.items())` (keys are distinct, so
lexicographic tuple order is order by key). -/
def leFst (a b : ℚ × ℚ) : Prop := a.1 ≤ b.1

/-- Key order of `sorted(map.items(), reverse=True)`. -/
def geFst (a b : ℚ × ℚ) : Prop := b.1 ≤ a.1

instance : DecidableRel leFst := fun a b => inferInstanceAs (Decidable (a.1 ≤ b.1))

instance : DecidableRel geFst := fun a b => inferInstanceAs (Decidable (b.1 ≤ a.1))

/-- Embedding of the ask side of `OrderbookSnapshot._sync`:
`[OrderbookLevel(p, s) for p, s in sorted(self.ask_map.items())]`
(this runs inside `models.py`, where `OrderbookLevel` is in scope). -/
def sortedAskLevels (m : PairMap) : List Level :=
  (List.insertionSort leFst m).map (fun kv => ⟨kv.1, kv.2⟩)

/-- Embedding of the bid side of `OrderbookSnapshot._sync`
(`reverse=True`). -/
def sortedBidLevels (m : PairMap) : List Level :=
  (List.insertionSort geFst m).map (fun kv => ⟨kv.1, kv.2⟩)

/-- Embedding of `OrderbookSnapshot._sync` as triggered by the `asks` /
`bids` property reads: when `_dirty` is set, both caches are rebuilt from
the maps and the flag cleared; otherwise the read is a no-op on the
state. -/
def syncBook (b : BookState) : BookState :=
  if b.dirty then
    { b with
      asksCache := sortedAskLevels b.askMap
      bidsCache := sortedBidLevels b.bidMap
      dirty := false }
  else b

/-- A Python exception raised inside the handler.  The dispatch loop of
`WSClient._process_queue` catches it, logs and continues with the next
message, keeping whatever partial mutation already happened. -/
inductive PyError where
  | nameError (name : String)
  | attributeError (name : String)
  deriving Repr, DecidableEq

/-- Check `idx < len(levels) and levels[idx].price == p` from the delta
branch of `_on_orderbook`. -/
def levelFoundAt (ls : List Level) (idx : ℕ) (p : ℚ) : Bool :=
  match ls[idx]? with
  | some l => l.price == p
  | none => false

/-- Embedding of `bisect.bisect_left(ls, key p)`: on a list ordered by
the strict key order `ltKey`, `bisect_left` returns the length of the
maximal prefix whose keys precede `p`. -/
def bisectIdx (ltKey : ℚ → ℚ → Bool) (ls : List Level) (p : ℚ) : ℕ :=
  (ls.takeWhile (fun l => ltKey l.price p)).length

/-- Ask-side bisect key order: plain `<` on prices. -/
def askLt (a b : ℚ) : Bool := a < b

/-- Bid-side bisect key order: the source searches with key `-price` for
`-p`, i.e. `-price < -p`, i.e. `p < price`. -/
def bidLt (a b : ℚ) : Bool := b < a

/-- One `(price, size)` ask pair of the delta branch of `_on_orderbook`
(engine.py lines 708-719).  Reading `book.asks` goes through the
property (syncing if dirty); a found price is updated or popped in cache
and map; for a new price with positive size the source evaluates
`OrderbookLevel(p, s)` — a name `engine.py` never imports — so the
insert raises `NameError` instead of extending the book. -/
def deltaAskPair (b : BookState) (p s : ℚ) : BookState × Option PyError :=
  let b := syncBook b
  let ls := b.asksCache
  let idx := bisectIdx askLt ls p
  if levelFoundAt ls idx p then
    if s == 0 then
      ({ b with asksCache := ls.eraseIdx idx, askMap := dpop b.askMap p }, none)
    else
      ({ b with asksCache := ls.set idx ⟨p, s⟩, askMap := dinsert b.askMap p s }, none)
  else if 0 < s then
    (b, some (.nameError "OrderbookLevel"))
  else
    (b, none)

/-- One `(price, size)` bid pair of the delta branch (engine.py lines
721-734), with the negated-key bisect; same `NameError` on the insert of
a new level. -/
def deltaBidPair (b : BookState) (p s : ℚ) : BookState × Option PyError :=
  let b := syncBook b
  let ls := b.bidsCache
  let idx := bisectIdx bidLt ls p
  if levelFoundAt ls idx p then
    if s == 0 then
      ({ b with bidsCache := ls.eraseIdx idx, bidMap := dpop b.bidMap p }, none)
    else
      ({ b with bidsCache := ls.set idx ⟨p, s⟩, bidMap := dinsert b.bidMap p s }, none)
  else if 0 < s then
    (b, some (.nameError "OrderbookLevel"))
  else
    (b, none)

/-- Sequencing of the per-pair updates: the first exception aborts the
rest of the handler, as a raised exception does in the Python loop. -/
def foldPairs (f : BookState → ℚ → ℚ → BookState × Option PyError) :
    List (ℚ × ℚ) → BookState → BookState × Option PyError
  | [], b => (b, none)
  | kv :: rest, b =>
    match f b kv.1 kv.2 with
    | (b1, none) => foldPairs f rest b1
    | (b1, some e) => (b1, some e)

/-- The inner `orderbook_p` payload shape `_on_orderbook` expects:
`book_data.get("asks", [])` / `book_data.get("bids", [])`. -/
structure ObBook where
  asks : List (ℚ × ℚ) := []
  bids : List (ℚ × ℚ) := []
  deriving Repr, DecidableEq

/-- The parts of the pushed `data` dict that `_on_orderbook` reads:
`data.get("type")`, `data.get("orderbook_p", ...)` and
`data.get("timestamp", 0)`; `none` models an absent key. -/
structure ObData where
  type : Option String := none
  orderbook_p : Option ObBook := none
  timestamp : Option ℤ := none
  deriving Repr, DecidableEq

/-- Embedding of `PhemexEngine._on_orderbook` with its error paths.
Snapshot branch: `book.ask_map` / `book.bid_map` are replaced (plain
fields, zero sizes filtered), then
`book.asks = [OrderbookLevel(p, s) for p, s in sorted(book.ask_map.items())]`
evaluates the comprehension — `NameError` on the first element because
`OrderbookLevel` is unimported in `engine.py`; an empty comprehension
yields `[]` and the assignment itself then raises `AttributeError`,
because `asks` is a read-only property of the slots dataclass.  Either
way the caches, the `_dirty` flag and the timestamp line are never
reached.  Delta branch: the per-pair updates run over both parsed dicts,
then `book.timestamp = data.get("timestamp", 0)` (a plain field). -/
def onOrderbookActual (b : BookState) (d : ObData) : BookState × Option PyError :=
  let isSnapshot := d.type == some "snapshot"
  let bookData := d.orderbook_p.getD {}
  let newAsks := dictOfPairs bookData.asks
  let newBids := dictOfPairs bookData.bids
  if isSnapshot then
    let askMap2 := newAsks.filter (fun kv => decide (0 < kv.2))
    let bidMap2 := newBids.filter (fun kv => decide (0 < kv.2))
    let b1 := { b with askMap := askMap2, bidMap := bidMap2 }
    if (List.insertionSort leFst askMap2).isEmpty then
      (b1, some (.attributeError "asks"))
    else
      (b1, some (.nameError "OrderbookLevel"))
  else
    match foldPairs deltaAskPair newAsks b with
    | (b1, some e) => (b1, some e)
    | (b1, none) =>
      match foldPairs deltaBidPair newBids b1 with
      | (b2, some e) => (b2, some e)
      | (b2, none) => ({ b2 with timestamp := d.timestamp.getD 0 }, none)

/-- What `WSClient._handle_orderbook` parses out of a push message and
passes to the engine callback: a dict with keys `asks`, `bids`, `type`
and `sequence`. -/
structure WsObMsg where
  asks : List (ℚ × ℚ) := []
  bids : List (ℚ × ℚ) := []
  type : String := ""
  sequence : ℤ := 0
  deriving Repr, DecidableEq

/-- The engine-side read of that dict: it carries a `type` key but no
`orderbook_p` and no `timestamp` key, so those two engine reads always
fall back to their defaults — the engine and the WS parse layer disagree
on the payload shape, and the parsed levels never reach the handler. -/
def wsParsedToData (m : WsObMsg) : ObData :=
  { type := some m.type, orderbook_p := none, timestamp := none }

/-- The full pipeline for one order-book push message. -/
def applyWsOrderbook (b : BookState) (m : WsObMsg) : BookState × Option PyError :=
  onOrderbookActual b (wsParsedToData m)

/-- State evolution over a message sequence: `_process_queue` isolates
each handler error, so the partially-mutated book carries over to the
next message. -/
def applyWsEvents (evs : List WsObMsg) : BookState :=
  evs.foldl (fun b m => (applyWsOrderbook b m).1) emptyBookState

/-- A concrete non-empty snapshot push for the failing input. -/
def snapshotPush : WsObMsg :=
  { asks := [(101, 1)], bids := [(100, 2)], type := "snapshot", sequence := 1 }

lemma applyWs_preserves_empty (m : WsObMsg) (b : BookState)
    (h : b.askMap = [] ∧ b.bidMap = [] ∧ b.asksCache = [] ∧ b.bidsCache = []) :
    ((applyWsOrderbook b m).1).askMap = [] ∧
    ((applyWsOrderbook b m).1).bidMap = [] ∧
    ((applyWsOrderbook b m).1).asksCache = [] ∧
    ((applyWsOrderbook b m).1).bidsCache = [] := by
  obtain ⟨h1, h2, h3, h4⟩ := h
  unfold applyWsOrderbook onOrderbookActual wsParsedToData
  simp only [Option.getD, dictOfPairs, List.foldl_nil]
  split
  · simp [h3, h4]
  · simp [foldPairs, h1, h2, h3, h4]

lemma applyWsEvents_empty (evs : List WsObMsg) :
    (applyWsEvents evs).askMap = [] ∧ (applyWsEvents evs).bidMap = [] ∧
    (applyWsEvents evs).asksCache = [] ∧ (applyWsEvents evs).bidsCache = [] := by
  unfold applyWsEvents
  induction evs using List.reverseRecOn with
  | nil => exact ⟨rfl, rfl, rfl, rfl⟩
  | append_singleton t m ih =>
    rw [List.foldl_append, List.foldl_cons, List.foldl_nil]
    exact applyWs_preserves_empty m _ ih

/-- C1: the engine's order-book handler can never store a level, so the
claimed sortedness/no-zero-size invariant holds only vacuously, on a book
that stays empty.  `_on_orderbook` reads `data["orderbook_p"]`, a key
`WSClient._handle_orderbook` never supplies, so every parsed level is
ignored; a snapshot clears both price maps and then raises
`AttributeError` assigning the read-only `asks` property (with a
non-empty map it would raise `NameError` first, `OrderbookLevel` being
unimported in `engine.py`), and a delta insert of a new price raises
`NameError`.  Concretely, the non-empty snapshot push leaves the book
empty and errors out, and after any event sequence no level is stored in
either sorted cache or either price map. -/
theorem orderbook_handler_never_stores :
    (wsParsedToData snapshotPush).orderbook_p = none ∧
    applyWsOrderbook emptyBookState snapshotPush =
      (emptyBookState, some (.attributeError "asks")) ∧
    (∀ evs : List WsObMsg,
      (applyWsEvents evs).askMap = [] ∧ (applyWsEvents evs).bidMap = [] ∧
      (applyWsEvents evs).asksCache = [] ∧ (applyWsEvents evs).bidsCache = []) :=
  ⟨rfl, rfl, applyWsEvents_empty⟩

/-! ### Candle store (`PhemexEngine._handle_candle_burst`) -/

/-- Embedding of `models.Candle`. -/
structure Candle where
  time : ℤ
  open' : ℚ := 0
  high : ℚ := 0
  low : ℚ := 0
  close : ℚ := 0
  volume : ℚ := 0
  deriving Repr, DecidableEq

/-- The engine's `_candle_map`: a dict keyed by candle time. -/
abbrev CandleMap := List (ℤ × Candle)

/-- Embedding of the upsert loop of `_handle_candle_burst`:
`for c in candles: cmap[c.time] = c`. -/
def upsertCandles (m : CandleMap) (cs : List Candle) : CandleMap :=
  cs.foldl (fun m c => dinsert m c.time c) m

/-- Embedding of the amortized cleanup of `_handle_candle_burst`: if more
than 2100 candles are stored, delete the keys in `sorted(keys)[:-2000]`,
i.e. all but the 2000 largest times. -/
def evictCandles (m : CandleMap) : CandleMap :=
  if 2100 < m.length then
    let sortedKeys := List.insertionSort (fun a b : ℤ => a ≤ b) (m.map Prod.fst)
    let doomed := sortedKeys.take (sortedKeys.length - 2000)
    m.filter (fun kv => !(doomed.contains kv.1))
  else m

/-- Embedding of the candle-map maintenance done by
`PhemexEngine._handle_candle_burst` (the price-seeding side effect on
`self._price` is independent of the map and not modelled here). -/
def handleCandleBurst (m : CandleMap) (cs : List Candle) : CandleMap :=
  evictCandles (upsertCandles m cs)

lemma nodupKeys_upsertCandles (cs : List Candle) :
    ∀ m : CandleMap, NodupKeys m → NodupKeys (upsertCandles m cs) := by
  induction cs with
  | nil => intro m h; exact h
  | cons c t ih =>
    intro m h
    exact ih _ (nodupKeys_dinsert _ _ h)

lemma countP_lt_length_of_mem {ks : List ℤ} {k : ℤ} (hk : k ∈ ks) :
    ks.countP (fun x => decide (k < x)) < ks.length := by
  rcases lt_or_eq_of_le (List.countP_le_length _) with h | h
  · exact h
  · exfalso
    have := List.countP_eq_length.1 h k hk
    simp at this

lemma mem_take_sorted_iff :
    ∀ {ks : List ℤ}, ks.Pairwise (· < ·) → ∀ (m : ℕ) (k : ℤ),
      (k ∈ ks.take m ↔
        k ∈ ks ∧ ks.length - m ≤ ks.countP (fun x => decide (k < x))) := by
  intro ks
  induction ks with
  | nil =>
    intro _ m k
    simp
  | cons a t ih =>
    intro hpw m k
    rw [List.pairwise_cons] at hpw
    obtain ⟨ha, ht⟩ := hpw
    cases m with
    | zero =>
      simp only [List.take_zero, List.not_mem_nil, false_iff, not_and, not_le,
        Nat.sub_zero]
      intro hk
      exact countP_lt_length_of_mem hk
    | succ j =>
      rw [List.take_succ_cons]
      by_cases hk : k = a
      · subst hk
        have hcp : t.countP (fun x => decide (k < x)) = t.length :=
          List.countP_eq_length.2 (fun x hx => decide_eq_true (ha x hx))
        have hcc : (k :: t).countP (fun x => decide (k < x)) = t.length := by
          rw [List.countP_cons]
          simp [hcp]
        constructor
        · intro _
          refine ⟨List.mem_cons_self _ _, ?_⟩
          rw [hcc, List.length_cons]
          omega
        · intro _
          exact List.mem_cons_self _ _
      · have hiff := ih ht j k
        constructor
        · intro hmem
          have hkt : k ∈ List.take j t := by
            rcases List.mem_cons.1 hmem with h | h
            · exact absurd h hk
            · exact h
          obtain ⟨hmemt, hcount⟩ := hiff.1 hkt
          have hak : a < k := ha k hmemt
          have hnot : ¬ (k < a) := lt_asymm hak
          refine ⟨List.mem_cons.2 (Or.inr hmemt), ?_⟩
          rw [List.countP_cons, List.length_cons]
          simp only [hnot, decide_eq_true_eq, if_false]
          omega
        · rintro ⟨hmem, hcount⟩
          rcases List.mem_cons.1 hmem with h | hmemt
          · exact absurd h hk
          · have hak : a < k := ha k hmemt
            have hnot : ¬ (k < a) := lt_asymm hak
            rw [List.countP_cons, List.length_cons] at hcount
            simp only [hnot, decide_eq_true_eq, if_false] at hcount
            have hcount' : t.length - j ≤ t.countP (fun x => decide (k < x)) := by
              omega
            exact List.mem_cons.2 (Or.inr (hiff.2 ⟨hmemt, hcount'⟩))

lemma countP_map_fst {α β : Type} (l : List (α × β)) (p : α → Bool) :
    (l.map Prod.fst).countP p = l.countP (fun kv => p kv.1) := by
  induction l with
  | nil => rfl
  | cons a t ih => simp [List.countP_cons, ih]

lemma contains_true_of_mem {α : Type} [BEq α] [LawfulBEq α] {l : List α} {a : α}
    (h : a ∈ l) : l.contains a = true := List.elem_iff.2 h

lemma mem_of_contains_true {α : Type} [BEq α] [LawfulBEq α] {l : List α} {a : α}
    (h : l.contains a = true) : a ∈ l := List.elem_iff.1 h

lemma pairwise_lt_sortedKeys {ks : List ℤ} (hnd : ks.Nodup) :
    (List.insertionSort (fun a b : ℤ => a ≤ b) ks).Pairwise (· < ·) := by
  have hsorted := List.sorted_insertionSort (fun a b : ℤ => a ≤ b) ks
  have hperm := List.perm_insertionSort (fun a b : ℤ => a ≤ b) ks
  have hnd2 : (List.insertionSort (fun a b : ℤ => a ≤ b) ks).Nodup :=
    hperm.nodup_iff.2 hnd
  exact (List.Pairwise.and hsorted hnd2).imp (fun hab => lt_of_le_of_ne hab.1 hab.2)

/-- C5: `_handle_candle_burst` evicts only when the stored count strictly
exceeds 2100, and then keeps exactly the entries whose time is among the
2000 largest (deleting exactly the oldest `count - 2000` entries); with at
most 2100 entries the upserted map is returned unchanged.  In particular
2101 distinct-time candles (one at a time or in one burst) leave exactly
the 2000 most recent stored. -/
theorem candle_eviction_hysteresis (m : CandleMap) (cs : List Candle)
    (hnd : NodupKeys m) :
    ((upsertCandles m cs).length ≤ 2100 →
        handleCandleBurst m cs = upsertCandles m cs) ∧
    (2100 < (upsertCandles m cs).length →
      (handleCandleBurst m cs).length = 2000 ∧
      ∀ kv, kv ∈ handleCandleBurst m cs ↔
        kv ∈ upsertCandles m cs ∧
        (upsertCandles m cs).countP
          (fun kv2 => decide (kv.1 < kv2.1)) < 2000) := by
  have hnd' : NodupKeys (upsertCandles m cs) := nodupKeys_upsertCandles cs m hnd
  set mu := upsertCandles m cs with hmu
  constructor
  · intro hle
    unfold handleCandleBurst evictCandles
    rw [← hmu, if_neg (by omega)]
  · intro hgt
    have hkeysnd : (mu.map Prod.fst).Nodup := by
      show (mu.map Prod.fst).Pairwise (· ≠ ·)
      rw [List.pairwise_map]
      exact hnd'
    set ks := mu.map Prod.fst with hks
    set sk := List.insertionSort (fun a b : ℤ => a ≤ b) ks with hsk
    have hperm : List.Perm sk ks := List.perm_insertionSort _ ks
    have hsknd : sk.Nodup := hperm.nodup_iff.2 hkeysnd
    have hskpw : sk.Pairwise (· < ·) := pairwise_lt_sortedKeys hkeysnd
    have hlensk : sk.length = mu.length := by
      rw [hperm.length_eq, hks, List.length_map]
    set doomed := sk.take (sk.length - 2000) with hdoomed
    have hresult : handleCandleBurst m cs =
        mu.filter (fun kv => !(doomed.contains kv.1)) := by
      unfold handleCandleBurst evictCandles
      rw [← hmu, if_pos (by omega)]
    have hdoomed_iff : ∀ k : ℤ, k ∈ doomed ↔
        k ∈ ks ∧ 2000 ≤ ks.countP (fun x => decide (k < x)) := by
      intro k
      rw [hdoomed, mem_take_sorted_iff hskpw]
      have h1 : sk.length - (sk.length - 2000) = 2000 := by omega
      rw [h1, hperm.mem_iff, hperm.countP_eq]
    have hcountP_eq : ∀ k : ℤ, ks.countP (fun x => decide (k < x)) =
        mu.countP (fun kv2 => decide (k < kv2.1)) := by
      intro k
      rw [hks, countP_map_fst]
    constructor
    · rw [hresult, ← List.countP_eq_length_filter]
      have h1 : mu.countP (fun kv => !(doomed.contains kv.1)) =
          ks.countP (fun x => !(doomed.contains x)) := by
        rw [hks, countP_map_fst]
      rw [h1, ← hperm.countP_eq]
      have hsplit : sk = doomed ++ sk.drop (sk.length - 2000) := by
        rw [hdoomed, List.take_append_drop]
      rw [hsplit, List.countP_append]
      have hdis : List.Disjoint doomed (sk.drop (sk.length - 2000)) := by
        have := hsplit ▸ hsknd
        exact (List.nodup_append.1 this).2.2
      have hc1 : doomed.countP (fun x => !(doomed.contains x)) = 0 := by
        rw [List.countP_eq_zero]
        intro a ha
        simpa using ha
      have hc2 : (sk.drop (sk.length - 2000)).countP
          (fun x => !(doomed.contains x)) = (sk.drop (sk.length - 2000)).length := by
        rw [List.countP_eq_length]
        intro a ha
        have hnotd : a ∉ doomed := fun had => hdis had ha
        cases hcont : doomed.contains a
        · simp [hcont]
        · exact absurd (mem_of_contains_true hcont) hnotd
      rw [hc1, hc2, List.length_drop]
      omega
    · intro kv
      rw [hresult, List.mem_filter]
      constructor
      · rintro ⟨hmem, hpred⟩
        refine ⟨hmem, ?_⟩
        have hnotd : kv.1 ∉ doomed := by
          intro hd
          have hcf : doomed.contains kv.1 = false := by simpa using hpred
          rw [contains_true_of_mem hd] at hcf
          simp at hcf
        rw [hdoomed_iff] at hnotd
        push_neg at hnotd
        have hkmem : kv.1 ∈ ks := by
          rw [hks]
          exact List.mem_map_of_mem Prod.fst hmem
        have := hnotd hkmem
        rw [hcountP_eq] at this
        omega
      · rintro ⟨hmem, hcount⟩
        refine ⟨hmem, ?_⟩
        have hnotd : kv.1 ∉ doomed := by
          rw [hdoomed_iff]
          push_neg
          intro _
          rw [hcountP_eq]
          omega
        cases hc : doomed.contains kv.1
        · simp [hc]
        · exact absurd (mem_of_contains_true hc) hnotd

/-- Witness for `candle_eviction_hysteresis`: instantiated at the empty
store (whose keys are trivially distinct) with one inserted candle — the
count stays below the watermark, so nothing is evicted. -/
theorem candle_eviction_hysteresis_witness :
    NodupKeys ([] : CandleMap) ∧
    handleCandleBurst [] [⟨100, 0, 0, 0, 0, 0⟩] =
      upsertCandles [] [⟨100, 0, 0, 0, 0, 0⟩] :=
  ⟨List.Pairwise.nil,
    (candle_eviction_hysteresis [] [⟨100, 0, 0, 0, 0, 0⟩] List.Pairwise.nil).1
      (by simp [upsertCandles, dinsert])⟩

/-! ### Precision formatting (`PhemexAdapter._fmt_qty` / `_fmt_price`) -/

/-- Embedding of the precision fields of `models.Product` used by the
adapter (`set_products` precomputes `10 ** qty_precision` and
`10 ** price_precision` as the multipliers). -/
structure Product where
  symbol : String := ""
  tickSize : ℚ := 1 / 100
  qtyStepSize : ℚ := 1 / 1000
  pricePrecision : ℕ := 2
  qtyPrecision : ℕ := 3
  deriving Repr, DecidableEq

/-- Embedding of Python's built-in `round` to an integer on an exact
value: nearest integer, ties to even. -/
def pyRound (x : ℚ) : ℤ :=
  if x - ⌊x⌋ < 1 / 2 then ⌊x⌋
  else if 1 / 2 < x - ⌊x⌋ then ⌊x⌋ + 1
  else if ⌊x⌋ % 2 = 0 then ⌊x⌋ else ⌊x⌋ + 1

/-- Embedding of `PhemexAdapter._fmt_qty` for a symbol with loaded product
metadata: `math.floor(qty * m) / m` with `m = 10 ** qty_precision` (the
fixed-point string formatting afterwards does not change the value). -/
def fmtQty (prod : Product) (qty : ℚ) : ℚ :=
  (⌊qty * (10 : ℚ) ^ prod.qtyPrecision⌋ : ℚ) / (10 : ℚ) ^ prod.qtyPrecision

/-- Embedding of `PhemexAdapter._fmt_price` for a symbol with loaded
product metadata: `round(price * m) / m` with `m = 10 ** price_precision`. -/
def fmtPrice (prod : Product) (price : ℚ) : ℚ :=
  ((pyRound (price * (10 : ℚ) ^ prod.pricePrecision) : ℚ)) / (10 : ℚ) ^ prod.pricePrecision

lemma pyRound_abs_le (x : ℚ) : |(pyRound x : ℚ) - x| ≤ 1 / 2 := by
  unfold pyRound
  have hf := Int.floor_le x
  have hl := Int.lt_floor_add_one x
  by_cases h1 : x - ⌊x⌋ < 1 / 2
  · rw [if_pos h1, abs_le]
    constructor <;> linarith
  · rw [if_neg h1]
    have h1' : 1 / 2 ≤ x - ⌊x⌋ := not_lt.1 h1
    by_cases h2 : 1 / 2 < x - ⌊x⌋
    · rw [if_pos h2, abs_le]
      constructor <;> push_cast <;> linarith
    · rw [if_neg h2]
      have heq : x - ⌊x⌋ = 1 / 2 := le_antisymm (not_lt.1 h2) h1'
      by_cases h3 : ⌊x⌋ % 2 = 0
      · rw [if_pos h3, abs_le]
        constructor <;> linarith
      · rw [if_neg h3, abs_le]
        constructor <;> push_cast <;> linarith

/-- C2 (amended): the submitted quantity is the request quantity floored
to a multiple of `10 ^ (-qtyPrecision)` — never rounded up, and less than
one decimal step below the request; every submitted price-like field is
the request value rounded to the nearest multiple of
`10 ^ (-pricePrecision)` with ties to even (Python `round`); the
product's `tickSize` and `qtyStepSize` fields are not consulted by the
formatting. -/
theorem precision_formatting_decimal (prod : Product) (q p : ℚ) :
    fmtQty prod q ≤ q ∧
    q - fmtQty prod q < 1 / (10 : ℚ) ^ prod.qtyPrecision ∧
    (∃ k : ℤ, fmtQty prod q = k / (10 : ℚ) ^ prod.qtyPrecision) ∧
    |fmtPrice prod p - p| ≤ 1 / (2 * (10 : ℚ) ^ prod.pricePrecision) ∧
    (∃ k : ℤ, fmtPrice prod p = k / (10 : ℚ) ^ prod.pricePrecision) ∧
    pyRound (5 / 2) = 2 ∧ pyRound (7 / 2) = 4 := by
  have hm : (0 : ℚ) < (10 : ℚ) ^ prod.qtyPrecision := by positivity
  have hmp : (0 : ℚ) < (10 : ℚ) ^ prod.pricePrecision := by positivity
  refine ⟨?_, ?_, ⟨⌊q * (10 : ℚ) ^ prod.qtyPrecision⌋, rfl⟩, ?_,
    ⟨pyRound (p * (10 : ℚ) ^ prod.pricePrecision), rfl⟩, by norm_num [pyRound],
    by norm_num [pyRound]⟩
  · unfold fmtQty
    rw [div_le_iff hm]
    exact Int.floor_le _
  · unfold fmtQty
    rw [sub_lt_iff_lt_add, div_add_div_same, lt_div_iff hm]
    have := Int.lt_floor_add_one (q * (10 : ℚ) ^ prod.qtyPrecision)
    push_cast
    linarith
  · unfold fmtPrice
    have habs := pyRound_abs_le (p * (10 : ℚ) ^ prod.pricePrecision)
    rw [show (pyRound (p * (10 : ℚ) ^ prod.pricePrecision) : ℚ) /
        (10 : ℚ) ^ prod.pricePrecision - p =
        ((pyRound (p * (10 : ℚ) ^ prod.pricePrecision) : ℚ) -
          p * (10 : ℚ) ^ prod.pricePrecision) / (10 : ℚ) ^ prod.pricePrecision by
      field_simp
      ring]
    rw [abs_div, abs_of_pos hmp, div_le_div_iff hmp (by positivity)]
    calc |(pyRound (p * (10 : ℚ) ^ prod.pricePrecision) : ℚ) -
          p * (10 : ℚ) ^ prod.pricePrecision| * (2 * (10 : ℚ) ^ prod.pricePrecision)
        ≤ (1 / 2) * (2 * (10 : ℚ) ^ prod.pricePrecision) := by
          apply mul_le_mul_of_nonneg_right habs
          positivity
      _ = 1 * (10 : ℚ) ^ prod.pricePrecision := by ring

/-- A product whose tick size (one half) is coarser than its decimal
price precision (one tenth) — the shape that separates rounding to tick
size from rounding to decimal precision. -/
def prodHalfTick : Product :=
  { symbol := "TEST", tickSize := 1 / 2, qtyStepSize := 1 / 1000,
    pricePrecision := 1, qtyPrecision := 3 }

/-- A product whose quantity step (0.005) is coarser than its decimal
quantity precision (0.001). -/
def prodFiveStep : Product :=
  { symbol := "TEST2", tickSize := 1 / 100, qtyStepSize := 1 / 200,
    pricePrecision := 2, qtyPrecision := 3 }

/-- C2 counterexample: with `tickSize = 0.5` and `pricePrecision = 1`,
the price 100.26 is formatted to 100.3, which is not a multiple of the
tick size (the spec expects 100.0 or 100.5); with `qtyStep = 0.005` and
`qtyPrecision = 3`, the quantity 0.007 is submitted unchanged, which is
not a multiple of the quantity step. -/
theorem precision_formatting_counterexample :
    fmtPrice prodHalfTick (10026 / 100) = 1003 / 10 ∧
    ¬ (∃ k : ℤ, fmtPrice prodHalfTick (10026 / 100) = k * prodHalfTick.tickSize) ∧
    fmtQty prodFiveStep (7 / 1000) = 7 / 1000 ∧
    ¬ (∃ k : ℤ, fmtQty prodFiveStep (7 / 1000) = k * prodFiveStep.qtyStepSize) := by
  have hp : fmtPrice prodHalfTick (10026 / 100) = 1003 / 10 := by
    norm_num [fmtPrice, pyRound, prodHalfTick]
  have hq : fmtQty prodFiveStep (7 / 1000) = 7 / 1000 := by
    norm_num [fmtQty, prodFiveStep]
  refine ⟨hp, ?_, hq, ?_⟩
  · rintro ⟨k, hk⟩
    rw [hp] at hk
    have htick : prodHalfTick.tickSize = 1 / 2 := rfl
    rw [htick] at hk
    have h2 : (1003 : ℚ) = 5 * (k : ℚ) := by linarith
    have h3 : (1003 : ℤ) = 5 * k := by exact_mod_cast h2
    omega
  · rintro ⟨k, hk⟩
    rw [hq] at hk
    have hstep : prodFiveStep.qtyStepSize = 1 / 200 := rfl
    rw [hstep] at hk
    have h2 : (7 : ℚ) = 5 * (k : ℚ) := by linarith
    have h3 : (7 : ℤ) = 5 * k := by exact_mod_cast h2
    omega

/-! ### Signed REST requests (`PhemexAdapter._request`,
`config.sign_hmac_bytes`) -/

/-- What `PhemexAdapter._request` produces before dispatching the HTTP
call: the URL path, the expiry header, the exact string passed to
`sign_hmac_bytes`, and the resulting signature header. -/
structure SignedRequest where
  method : String
  url : String
  expiryHeader : ℤ
  signedMessage : String
  signature : String
  deriving Repr, DecidableEq

/-- Embedding of the signing part of `PhemexAdapter._request`:
`expiry = int(time.time()) + 60`, the query string is canonicalized by
unescaping `%2C` back to commas, and the signature is the HMAC-SHA256 of
`endpoint + query_string_sig + expiry`.  `queryString` stands for
`urlencode(params)`; `hmacSha256` abstracts `config.sign_hmac_bytes`
(HMAC-SHA256 hex digest of the message under the API secret). -/
def buildSignedRequest (hmacSha256 : String → String → String) (secret : String)
    (method endpoint queryString : String) (now : ℤ) : SignedRequest :=
  let expiry := now + 60
  let path := endpoint ++ (if queryString != "" then "?" ++ queryString else "")
  let querySig := queryString.replace "%2C" ","
  let signString := endpoint ++ querySig ++ toString expiry
  { method := method, url := path, expiryHeader := expiry,
    signedMessage := signString,
    signature := hmacSha256 secret signString }

/-- C7 (amended): the attached signature is the HMAC-SHA256, under the
API secret, of the string `endpoint path + canonicalized query string +
expiry`, where the expiry is 60 seconds after issue and is sent with the
request in the `x-phemex-request-expiry` header; the HTTP method is not
part of the signed string. -/
theorem request_signature_contents (hmac : String → String → String)
    (secret method endpoint queryString : String) (now : ℤ) :
    (buildSignedRequest hmac secret method endpoint queryString now).signature =
      hmac secret (endpoint ++ queryString.replace "%2C" "," ++ toString (now + 60)) ∧
    (buildSignedRequest hmac secret method endpoint queryString now).expiryHeader =
      now + 60 ∧
    (∀ method2 : String,
      (buildSignedRequest hmac secret method2 endpoint queryString now).signedMessage =
        (buildSignedRequest hmac secret method endpoint queryString now).signedMessage) :=
  ⟨rfl, rfl, fun _ => rfl⟩

/-- C7 counterexample: two requests that differ only in their HTTP method
produce the identical signed string, so the signature cannot cover the
method; the concrete signed string for the GET request is exactly
`endpoint + query + expiry`, with no method in it. -/
theorem signature_omits_method_counterexample :
    (buildSignedRequest (fun _ m => m) "secret" "GET" "/g-orders/activeList"
      "symbol=BTCUSDT" 1700000000).signedMessage =
    (buildSignedRequest (fun _ m => m) "secret" "DELETE" "/g-orders/activeList"
      "symbol=BTCUSDT" 1700000000).signedMessage ∧
    "GET" ≠ "DELETE" ∧
    (buildSignedRequest (fun _ m => m) "secret" "GET" "/g-orders/activeList"
      "symbol=BTCUSDT" 1700000000).signedMessage =
      "/g-orders/activeList" ++ ("symbol=BTCUSDT".replace "%2C" ",") ++
        toString ((1700000000 : ℤ) + 60) := by
  refine ⟨rfl, by decide, ?_⟩
  rfl

/-! ### REST response handling (`PhemexAdapter._request` tail) -/

/-- An application-level JSON response body after HTTP success: either a
bare list (some `api-data` endpoints) or an object with optional `code`,
`msg`, `error.code`, `error.message` fields; `payload` is an opaque tag
standing for the rest of the body. -/
inductive RespBody where
  | listBody (rows : ℕ)
  | objBody (code : Option ℤ) (msg : Option String)
      (errCode : Option ℤ) (errMsg : Option String) (payload : ℕ)
  deriving Repr, DecidableEq

/-- Embedding of the effective error code lookup in `_request`:
`json_data.get("code", json_data.get("error", dict()).get("code"))`. -/
def effectiveCode : RespBody → Option ℤ
  | .listBody _ => none
  | .objBody c _ ec _ _ =>
    match c with
    | some v => some v
    | none => ec

/-- Embedding of the message lookup in `_request`:
`json_data.get("msg", json_data.get("error", dict()).get("message", ""))`. -/
def effectiveMsg : RespBody → String
  | .listBody _ => ""
  | .objBody _ m _ em _ =>
    match m with
    | some v => v
    | none => em.getD ""

/-- The `RuntimeError` raised by `_request` on a non-zero application
error code, carrying the code and the exchange message. -/
structure ApiError where
  code : ℤ
  msg : String
  deriving Repr, DecidableEq

/-- Embedding of the response tail of `PhemexAdapter._request`: a bare
list is wrapped as data rows and returned; an object whose effective code
is present and non-zero raises; otherwise the parsed body is returned. -/
def handleResponse (r : RespBody) : Except ApiError RespBody :=
  match r with
  | .listBody rows => .ok (.listBody rows)
  | .objBody c m ec em payload =>
    match effectiveCode (.objBody c m ec em payload) with
    | some code =>
      if code ≠ 0 then
        .error ⟨code, effectiveMsg (.objBody c m ec em payload)⟩
      else .ok (.objBody c m ec em payload)
    | none => .ok (.objBody c m ec em payload)

/-- C8: an HTTP-success response carrying a non-zero application-level
error code makes `_request` raise an error with that code and the
exchange message, returning no result; a zero or absent code returns the
parsed response normally. -/
theorem nonzero_code_raises :
    (∀ (r : RespBody) (code : ℤ), effectiveCode r = some code → code ≠ 0 →
      handleResponse r = .error ⟨code, effectiveMsg r⟩) ∧
    (∀ r : RespBody, (effectiveCode r = none ∨ effectiveCode r = some 0) →
      handleResponse r = .ok r) := by
  constructor
  · intro r code hc hne
    cases r with
    | listBody rows => simp [effectiveCode] at hc
    | objBody c m ec em payload =>
      have hdef : handleResponse (.objBody c m ec em payload) =
          match effectiveCode (.objBody c m ec em payload) with
          | some code =>
            if code ≠ 0 then
              .error ⟨code, effectiveMsg (.objBody c m ec em payload)⟩
            else .ok (.objBody c m ec em payload)
          | none => .ok (.objBody c m ec em payload) := rfl
      rw [hdef, hc]
      simp [hne]
  · intro r hc
    cases r with
    | listBody rows => rfl
    | objBody c m ec em payload =>
      have hdef : handleResponse (.objBody c m ec em payload) =
          match effectiveCode (.objBody c m ec em payload) with
          | some code =>
            if code ≠ 0 then
              .error ⟨code, effectiveMsg (.objBody c m ec em payload)⟩
            else .ok (.objBody c m ec em payload)
          | none => .ok (.objBody c m ec em payload) := rfl
      rw [hdef]
      rcases hc with hc | hc
      · rw [hc]
      · rw [hc]
        simp

/-- Witness for `nonzero_code_raises`: a concrete HTTP-200 body with
application code 10500 raises with that code and message. -/
theorem nonzero_code_raises_witness :
    effectiveCode (.objBody (some 10500) (some "Order not found") none none 7) =
      some 10500 ∧
    (10500 : ℤ) ≠ 0 ∧
    handleResponse (.objBody (some 10500) (some "Order not found") none none 7) =
      .error ⟨10500, "Order not found"⟩ ∧
    effectiveCode (.objBody (some 0) none none none 3) = some 0 ∧
    handleResponse (.objBody (some 0) none none none 3) =
      .ok (.objBody (some 0) none none none 3) :=
  ⟨rfl, by decide, nonzero_code_raises.1 _ 10500 rfl (by decide),
    rfl, nonzero_code_raises.2 _ (Or.inr rfl)⟩

/-! ### Order status normalization (`place_order`, `amend_order`,
`_refresh_orders`) -/

/-- Fields of the `data` object of a place/amend response used by the
adapter. -/
structure RespOrderData where
  ordStatus : String := ""
  orderID : String := ""
  clOrdID : String := ""
  avgPriceRp : ℚ := 0
  cumQtyRq : ℚ := 0
  deriving Repr, DecidableEq

/-- Embedding of `models.OrderResult`. -/
structure OrderResult where
  orderId : String
  clOrdId : String
  status : String
  avgPrice : ℚ := 0
  cumQty : ℚ := 0
  deriving Repr, DecidableEq

/-- Embedding of the result normalization at the end of
`PhemexAdapter.place_order`: an exchange `ordStatus` of `Created` is
mapped to `New`. -/
def placeOrderResult (d : RespOrderData) : OrderResult :=
  { orderId := d.orderID, clOrdId := d.clOrdID,
    status := if d.ordStatus == "Created" then "New" else d.ordStatus,
    avgPrice := d.avgPriceRp, cumQty := d.cumQtyRq }

/-- Embedding of the result construction at the end of
`PhemexAdapter.amend_order`: `ordStatus` is taken verbatim. -/
def amendOrderResult (d : RespOrderData) : OrderResult :=
  { orderId := d.orderID, clOrdId := d.clOrdID, status := d.ordStatus,
    avgPrice := d.avgPriceRp, cumQty := d.cumQtyRq }

/-- One raw open order from `query_open_orders`, with the duck-typed
`RawOpenOrder` accessor fields already resolved. -/
structure RawOrder where
  orderId : String := ""
  symbol : String := ""
  side : String := ""
  orderType : String := ""
  qty : ℚ := 0
  price : ℚ := 0
  status : String := ""
  stopPrice : ℚ := 0
  deriving Repr, DecidableEq

/-- Embedding of `models.Order`. -/
structure Order where
  orderId : String := ""
  symbol : String := ""
  side : String := "Buy"
  type : String := "Limit"
  qty : ℚ := 0
  price : ℚ := 0
  status : String := "New"
  triggerPrice : ℚ := 0
  deriving Repr, DecidableEq

/-- Embedding of `PhemexEngine._refresh_orders`: each raw open order is
looked up in the previous id-keyed cache; a hit is updated in place
(qty, price, status, trigger price), a miss builds a fresh `Order`; in
both branches an exchange status of `Created` is stored as `New`. -/
def refreshOrders (oldOrders : List Order) (raws : List RawOrder) : List Order :=
  raws.map (fun o =>
    match oldOrders.find? (fun e => e.orderId == o.orderId) with
    | some e =>
      { e with
        qty := o.qty
        price := o.price
        status := if o.status == "Created" then "New" else o.status
        triggerPrice := o.stopPrice }
    | none =>
      { orderId := o.orderId, symbol := o.symbol, side := o.side,
        type := o.orderType, qty := o.qty, price := o.price,
        status := if o.status == "Created" then "New" else o.status,
        triggerPrice := o.stopPrice })

/-- C9 (amended): `place_order` and the open-order cache refresh map the
exchange status `Created` to `New` (and never store `Created`), but
`amend_order` returns the exchange-reported status verbatim, so a
`Created` status passes through unnormalized there. -/
theorem created_status_normalization :
    (∀ d : RespOrderData, (placeOrderResult d).status ≠ "Created" ∧
      (d.ordStatus = "Created" → (placeOrderResult d).status = "New")) ∧
    (∀ (old : List Order) (raws : List RawOrder),
      (refreshOrders old raws).map (fun o => o.status) =
        raws.map (fun o => if o.status == "Created" then "New" else o.status)) ∧
    (∀ d : RespOrderData, (amendOrderResult d).status = d.ordStatus) := by
  refine ⟨?_, ?_, fun d => rfl⟩
  · intro d
    constructor
    · show (if d.ordStatus == "Created" then "New" else d.ordStatus) ≠ "Created"
      by_cases h : (d.ordStatus == "Created") = true
      · rw [if_pos h]
        decide
      · rw [if_neg h]
        intro heq
        exact h (by simp [heq])
    · intro h
      show (if d.ordStatus == "Created" then "New" else d.ordStatus) = "New"
      rw [if_pos (by simp [h])]
  · intro old raws
    unfold refreshOrders
    rw [List.map_map]
    apply List.map_congr_left
    intro o _
    cases hf : old.find? (fun e => e.orderId == o.orderId) <;> simp [hf, Function.comp]

/-- Witness for `created_status_normalization`: a place response with
status `Created` comes back as `New`. -/
theorem created_status_normalization_witness :
    ({ ordStatus := "Created" } : RespOrderData).ordStatus = "Created" ∧
    (placeOrderResult { ordStatus := "Created" }).status = "New" :=
  ⟨rfl, (created_status_normalization.1 { ordStatus := "Created" }).2 rfl⟩

/-- C9 counterexample: an amend response with exchange status `Created`
yields an `OrderResult` whose status is still `Created`, not `New`. -/
theorem amend_created_not_normalized :
    (amendOrderResult { ordStatus := "Created" }).status = "Created" ∧
    "Created" ≠ "New" :=
  ⟨rfl, by decide⟩

/-! ### The debug accessor `PhemexEngine.get_state` -/

/-- Every attribute name assigned on `PhemexEngine` instances: all
`self.<name> = ...` targets in `engine.py` (`__init__` assigns this full
set; every other method only reassigns names from it — candle storage
lives in `_candle_map` / `_candles_cached`). -/
def engineAssignedAttrs : List String :=
  ["_symbol", "_symbol_bytes", "_resolution", "_api_key", "_api_secret",
   "_booted", "_price", "_candle_map", "_candles_cached", "_candles_dirty",
   "_history_time", "_history_open", "_history_high", "_history_low",
   "_history_close", "_history_volume", "_ticker", "_products", "_wallet",
   "_positions", "_pos_map", "_pos_entry_prices", "_pos_pnl_factors",
   "_pos_unrealized_pnls", "_orders", "_order_map", "_active_ids",
   "_orderbook", "rest", "ws", "adapter", "_executor"]

/-- Python attribute read on an engine instance: `AttributeError` unless
the attribute has been assigned. -/
def readAttr (attrs : List String) (name : String) : Except String String :=
  if attrs.contains name then .ok name else .error ("AttributeError: " ++ name)

/-- Embedding of `PhemexEngine.get_state`: the dict literal reads, in
evaluation order, `_symbol`, `_price`, `_candles` (for `len(...)`),
`_ticker`, `_wallet`, `_positions`, `_orders` and `ws`; the first failing
attribute read aborts the call with `AttributeError`. -/
def getState (attrs : List String) : Except String (List String) := do
  let s ← readAttr attrs "_symbol"
  let p ← readAttr attrs "_price"
  let c ← readAttr attrs "_candles"
  let t ← readAttr attrs "_ticker"
  let w ← readAttr attrs "_wallet"
  let ps ← readAttr attrs "_positions"
  let os ← readAttr attrs "_orders"
  let ws ← readAttr attrs "ws"
  pure [s, p, c, t, w, ps, os, ws]

/-- C10: `get_state` reads the attribute `_candles`, which no code path
assigns (candle storage lives in `_candle_map` and `_candles_cached`), so
the call raises `AttributeError` instead of returning the state dict. -/
theorem get_state_raises_attribute_error :
    engineAssignedAttrs.contains "_candles" = false ∧
    getState engineAssignedAttrs = .error "AttributeError: _candles" :=
  ⟨rfl, rfl⟩

/-! ### Positions: direction resolution, PnL on tick, flat slots
(`PhemexAdapter.get_account_info`, `WSClient._handle_aop`,
`PhemexEngine._on_positions` / `_on_price`) -/

/-- Raw position payload fields read by the adapter and the WS client
(field defaults are the `.get(...)` defaults of the source). -/
structure RawPosition where
  symbol : String := ""
  side : String := "Buy"
  posSide : String := "Merged"
  size : ℚ := 0
  avgEntryPriceRp : ℚ := 0
  markPriceRp : ℚ := 0
  unrealisedPnlRv : ℚ := 0
  leverageRr : ℚ := 0
  liquidationPriceRp : ℚ := 0
  usedBalanceRv : ℚ := 0
  deriving Repr, DecidableEq

/-- Embedding of `models.PositionInfo` with its dataclass defaults. -/
structure PositionInfo where
  symbol : String := ""
  side : String := "Buy"
  size : ℚ := 0
  entryPrice : ℚ := 0
  unrealizedPnl : ℚ := 0
  leverage : ℚ := 1
  liquidationPrice : ℚ := 0
  margin : ℚ := 0
  posSide : String := "Merged"
  sideMultiplier : ℚ := 1
  pnlFactor : ℚ := 0
  deriving Repr, DecidableEq

/-- The direction rule of `get_account_info`: long iff
`posSide == "Long"` or (`posSide == "Merged"` and `side == "Buy"`). -/
def isLongRule (posSide side : String) : Bool :=
  posSide == "Long" || (posSide == "Merged" && side == "Buy")

/-- Embedding of the `PositionInfo(...)` built for one raw position in
`PhemexAdapter.get_account_info`; `pnl_factor` is not passed and stays at
its dataclass default 0. -/
def parseRestPosition (p : RawPosition) : PositionInfo :=
  { symbol := p.symbol
    side := p.side
    size := p.size
    entryPrice := p.avgEntryPriceRp
    unrealizedPnl := p.unrealisedPnlRv
    leverage := p.leverageRr
    liquidationPrice := p.liquidationPriceRp
    margin := p.usedBalanceRv
    posSide := p.posSide
    sideMultiplier := if isLongRule p.posSide p.side then 1 else -1 }

/-- Embedding of the position loop of `get_account_info`: raw positions
with `abs(size) == 0` are skipped with `continue`, the rest are parsed. -/
def restPositions (raws : List RawPosition) : List PositionInfo :=
  (raws.filter (fun p => !(|p.size| == 0))).map parseRestPosition

/-- Embedding of `PhemexAdapter.get_position`: the first fetched position
for the symbol with `abs(size) > 0`. -/
def getPosition (raws : List RawPosition) (symbol : String) : Option PositionInfo :=
  (restPositions raws).find? (fun p => p.symbol == symbol && decide (0 < |p.size|))

/-- Embedding of `models.Position` with its dataclass defaults. -/
structure Position where
  symbol : String := ""
  side : String := "Buy"
  size : ℚ := 0
  value : ℚ := 0
  entryPrice : ℚ := 0
  markPrice : ℚ := 0
  liquidationPrice : ℚ := 0
  leverage : ℚ := 1
  unrealizedPnl : ℚ := 0
  realizedPnl : ℚ := 0
  margin : ℚ := 0
  posSide : String := "Merged"
  sideMultiplier : ℚ := 1
  pnlFactor : ℚ := 0
  deriving Repr, DecidableEq

/-- Embedding of the `Position(...)` built by `WSClient._handle_aop` for
one pushed raw position; `side_multiplier` and `pnl_factor` are not
passed and keep their dataclass defaults 1 and 0. -/
def parseWsPosition (p : RawPosition) : Position :=
  { symbol := p.symbol
    side := p.side
    size := p.size
    entryPrice := p.avgEntryPriceRp
    markPrice := p.markPriceRp
    liquidationPrice := p.liquidationPriceRp
    leverage := |p.leverageRr|
    unrealizedPnl := p.unrealisedPnlRv
    margin := p.usedBalanceRv
    posSide := p.posSide }

/-- Embedding of the `positions_p` loop of `WSClient._handle_aop`. -/
def wsPositions (raws : List RawPosition) : List Position :=
  raws.map parseWsPosition

/-- The engine state that `_on_positions` / `_on_price` touch: the
tracked position list and the parallel JIT arrays. -/
structure EngineSt where
  primarySymbol : String := "BTCUSDT"
  price : ℚ := 0
  positions : List Position := []
  posEntryPrices : List ℚ := []
  posPnlFactors : List ℚ := []
  deriving Repr, DecidableEq

/-- The engine state as `__init__` leaves it. -/
def engineSt0 : EngineSt := {}

/-- Embedding of `PhemexEngine._on_positions`: computes
`pnl_factor = size * side_multiplier` for every pushed position, replaces
the tracked list, and rebuilds the JIT arrays from it. -/
def onPositions (st : EngineSt) (ps : List Position) : EngineSt :=
  let ps2 := ps.map (fun p => { p with pnlFactor := p.size * p.sideMultiplier })
  { st with
    positions := ps2
    posEntryPrices := ps2.map (fun p => p.entryPrice)
    posPnlFactors := ps2.map (fun p => p.pnlFactor) }

/-- Embedding of `PhemexEngine._on_price`: when the JIT arrays are
non-empty, every tracked position (paired index-wise with the arrays,
which the source keeps the same length as the list) gets
`unrealized_pnl = (price - entry) * pnl_factor`; positions of a
non-primary target symbol additionally get the same direct update. -/
def onPrice (st : EngineSt) (price : ℚ) (symbol : String) : EngineSt :=
  let target := if symbol == "" then st.primarySymbol else symbol
  let ps1 :=
    if 0 < st.posEntryPrices.length then
      (st.positions.zip (st.posEntryPrices.zip st.posPnlFactors)).map
        (fun pef => { pef.1 with unrealizedPnl := (price - pef.2.1) * pef.2.2 })
    else st.positions
  let ps2 :=
    if target != st.primarySymbol then
      ps1.map (fun p =>
        if p.symbol == target then
          { p with unrealizedPnl := (price - p.entryPrice) * p.pnlFactor }
        else p)
    else ps1
  { st with price := price, positions := ps2 }

lemma zip_map_map {β : Type} (l : List Position) (e f : Position → ℚ)
    (g : Position × ℚ × ℚ → β) :
    (l.zip ((l.map e).zip (l.map f))).map g = l.map (fun p => g (p, e p, f p)) := by
  induction l with
  | nil => rfl
  | cons a t ih => simp [ih]

lemma pos_set_pnl_self (p : Position) (x : ℚ) (h : p.unrealizedPnl = x) :
    ({ p with unrealizedPnl := x } : Position) = p := by
  cases p
  simp only at h
  rw [← h]

/-- Net effect of a stream position push followed by any tick: every
pushed position ends with `pnl_factor = size * side_multiplier` and
`unrealized_pnl = (price - entry) * pnl_factor`, regardless of the tick
symbol. -/
lemma onPrice_after_onPositions (st : EngineSt) (ps : List Position)
    (price : ℚ) (sym : String) :
    (onPrice (onPositions st ps) price sym).positions =
      ps.map (fun p =>
        { p with
          pnlFactor := p.size * p.sideMultiplier
          unrealizedPnl := (price - p.entryPrice) * (p.size * p.sideMultiplier) }) := by
  cases ps with
  | nil =>
    simp [onPositions, onPrice]
  | cons a t =>
    unfold onPositions onPrice
    simp only [List.length_map, List.length_cons, Nat.succ_pos, if_pos]
    rw [zip_map_map]
    split <;> split
    all_goals try rfl
    all_goals simp only [List.map_map]
    all_goals refine List.map_congr_left ?_
    all_goals intro q _
    all_goals try simp only [Function.comp_apply]
    all_goals try split
    all_goals rfl

/-- A Short-mode raw position as pushed on the account stream. -/
def shortPosRaw : RawPosition :=
  { symbol := "BTCUSDT"
    side := "Sell"
    posSide := "Short"
    size := 2
    avgEntryPriceRp := 100 }

/-- A Merged-mode raw position on a third symbol. -/
def solPosRaw : RawPosition :=
  { symbol := "SOLUSDT"
    side := "Buy"
    posSide := "Merged"
    size := 1
    avgEntryPriceRp := 100 }

/-- A flat (size 0) raw position. -/
def zeroPosRaw : RawPosition :=
  { symbol := "BTCUSDT"
    side := "Sell"
    posSide := "Merged"
    size := 0
    avgEntryPriceRp := 50 }

/-- A non-flat Buy raw position. -/
def buyPosRaw : RawPosition :=
  { symbol := "BTCUSDT"
    side := "Buy"
    posSide := "Merged"
    size := 3
    avgEntryPriceRp := 100 }

/-- C3 (amended): positions parsed by the REST account fetch resolve the
direction multiplier by the rule — +1 iff `posSide == Long` or
(`posSide == Merged` and `side == Buy`), −1 otherwise — but leave
`pnl_factor` at 0; positions parsed from a stream account/position push
always get the default multiplier +1, whatever their side; consequently a
Short stream-pushed position with entryPrice 100 and size 2 shows
`unrealizedPnl = +20` (not −20) after a tick at price 110. -/
theorem direction_multiplier_resolution :
    (∀ raw : RawPosition,
      (parseRestPosition raw).sideMultiplier =
        (if isLongRule raw.posSide raw.side then 1 else -1) ∧
      (parseRestPosition raw).pnlFactor = 0) ∧
    (∀ raw : RawPosition,
      (parseWsPosition raw).sideMultiplier = 1 ∧
      (parseWsPosition raw).pnlFactor = 0) ∧
    ((onPrice (onPositions engineSt0 (wsPositions [shortPosRaw])) 110
        "BTCUSDT").positions.map (fun p => p.unrealizedPnl) = [20]) := by
  refine ⟨fun raw => ⟨rfl, rfl⟩, fun raw => ⟨rfl, rfl⟩, ?_⟩
  rw [onPrice_after_onPositions]
  simp [wsPositions, parseWsPosition, shortPosRaw]
  norm_num

/-- C3 counterexample: the stream parse gives a Short position the
multiplier +1 (the claim says −1), and a tick at 110 on the Short
position with entry 100 and size 2 yields `unrealizedPnl = +20`, not the
−20 the claim states. -/
theorem ws_short_multiplier_counterexample :
    shortPosRaw.posSide = "Short" ∧
    shortPosRaw.size = 2 ∧
    shortPosRaw.avgEntryPriceRp = 100 ∧
    (parseWsPosition shortPosRaw).sideMultiplier = 1 ∧
    (1 : ℚ) ≠ -1 ∧
    ((onPrice (onPositions engineSt0 (wsPositions [shortPosRaw])) 110
        "BTCUSDT").positions.map (fun p => p.unrealizedPnl) = [20]) ∧
    (20 : ℚ) ≠ -20 := by
  refine ⟨rfl, rfl, rfl, rfl, by norm_num, ?_, by norm_num⟩
  rw [onPrice_after_onPositions]
  simp [wsPositions, parseWsPosition, shortPosRaw]
  norm_num

/-- C4 (amended): after a stream position push, every tick — whatever its
symbol — sets `unrealizedPnl = (price − entryPrice) × pnlFactor` (with
`pnlFactor = size × sideMultiplier`) on every tracked position via the
vectorized loop; positions matching a non-primary tick symbol merely get
the same value written a second time, and no position is exempted by its
symbol. -/
theorem tick_updates_all_positions (st : EngineSt) (ps : List Position)
    (price : ℚ) (sym : String) :
    (onPrice (onPositions st ps) price sym).positions =
      ps.map (fun p =>
        { p with
          pnlFactor := p.size * p.sideMultiplier
          unrealizedPnl := (price - p.entryPrice) * (p.size * p.sideMultiplier) }) :=
  onPrice_after_onPositions st ps price sym

/-- C4 counterexample: with primary symbol BTCUSDT and one tracked
SOLUSDT position, a tick for the unrelated symbol ETHUSDT changes the
SOLUSDT position's `unrealizedPnl` from 0 to 10 — the claim says a
position of a different, non-matching symbol is left unchanged. -/
theorem tick_cross_symbol_counterexample :
    solPosRaw.symbol = "SOLUSDT" ∧
    engineSt0.primarySymbol = "BTCUSDT" ∧
    ("SOLUSDT" : String) ≠ "ETHUSDT" ∧
    ("ETHUSDT" : String) ≠ "BTCUSDT" ∧
    ((onPositions engineSt0 (wsPositions [solPosRaw])).positions.map
      (fun p => p.unrealizedPnl) = [0]) ∧
    ((onPrice (onPositions engineSt0 (wsPositions [solPosRaw])) 110
        "ETHUSDT").positions.map (fun p => p.unrealizedPnl) = [10]) := by
  refine ⟨rfl, rfl, by decide, by decide, ?_, ?_⟩
  · simp [onPositions, wsPositions, parseWsPosition, solPosRaw]
  · rw [onPrice_after_onPositions]
    simp [wsPositions, parseWsPosition, solPosRaw]
    norm_num

/-- C6 (amended): positions with size 0 are dropped by the REST account
fetch before they reach the tracker (not retained); a stream push retains
them, and each tick recomputes their `unrealizedPnl` with
`pnlFactor = 0 × sideMultiplier = 0`, forcing it to 0; the adapter's
single-position query never returns a flat position. -/
theorem flat_position_handling :
    (∀ raws : List RawPosition, ∀ q ∈ restPositions raws, q.size ≠ 0) ∧
    (∀ raws : List RawPosition,
      (wsPositions raws).map (fun p => p.size) = raws.map (fun r => r.size)) ∧
    (∀ (st : EngineSt) (ps : List Position) (price : ℚ) (sym : String),
      ∀ q ∈ (onPrice (onPositions st ps) price sym).positions,
        q.size = 0 → q.unrealizedPnl = 0) ∧
    (∀ (raws : List RawPosition) (sym : String) (p : PositionInfo),
      getPosition raws sym = some p → 0 < |p.size|) := by
  refine ⟨?_, ?_, ?_, ?_⟩
  · intro raws q hq
    rcases List.mem_map.1 hq with ⟨r, hr, rfl⟩
    have hfilt := List.of_mem_filter hr
    intro h0
    have : |r.size| = 0 := by
      show |(parseRestPosition r).size| = 0
      rw [h0, abs_zero]
    simp [this] at hfilt
  · intro raws
    unfold wsPositions
    rw [List.map_map]
    rfl
  · intro st ps price sym q hq h0
    rw [onPrice_after_onPositions] at hq
    rcases List.mem_map.1 hq with ⟨p, hp, rfl⟩
    have hsize : p.size = 0 := h0
    show (price - p.entryPrice) * (p.size * p.sideMultiplier) = 0
    rw [hsize]
    ring
  · intro raws sym p hp
    have := List.find?_some hp
    rw [Bool.and_eq_true] at this
    simpa using this.2

/-- The flat stream position after the 110 tick. -/
def zeroPosTicked : Position :=
  { parseWsPosition zeroPosRaw with
    pnlFactor := 0 * 1
    unrealizedPnl := (110 - 50) * (0 * 1) }

/-- C6 counterexample: a REST account fetch containing one flat (size 0)
position returns an empty position list — the flat slot is dropped before
it reaches the tracker, not retained. -/
theorem rest_flat_dropped_counterexample :
    zeroPosRaw.size = 0 ∧ restPositions [zeroPosRaw] = [] := by
  refine ⟨rfl, ?_⟩
  simp [restPositions, zeroPosRaw]

/-- Witness for `flat_position_handling`: a fetch with one flat and one
live position keeps only the live one (size 3 ≠ 0); a stream push of the
flat position keeps it and the 110 tick leaves its PnL at 0; the
single-position query returns only the live position. -/
theorem flat_position_handling_witness :
    (parseRestPosition buyPosRaw).size ≠ 0 ∧
    zeroPosTicked.size = 0 ∧
    zeroPosTicked.unrealizedPnl = 0 ∧
    0 < |(parseRestPosition buyPosRaw).size| := by
  have hmem1 : parseRestPosition buyPosRaw ∈ restPositions [zeroPosRaw, buyPosRaw] := by
    simp [restPositions, zeroPosRaw, buyPosRaw]
  have hmem2 : zeroPosTicked ∈
      (onPrice (onPositions engineSt0 (wsPositions [zeroPosRaw])) 110
        "BTCUSDT").positions := by
    rw [onPrice_after_onPositions]
    simp [wsPositions, zeroPosTicked, parseWsPosition, zeroPosRaw]
  have hfind : getPosition [zeroPosRaw, buyPosRaw] "BTCUSDT" =
      some (parseRestPosition buyPosRaw) := by
    simp [getPosition, restPositions, zeroPosRaw, buyPosRaw, parseRestPosition,
      List.find?]
  exact ⟨flat_position_handling.1 [zeroPosRaw, buyPosRaw]
      (parseRestPosition buyPosRaw) hmem1,
    rfl,
    flat_position_handling.2.2.1 engineSt0 (wsPositions [zeroPosRaw]) 110
      "BTCUSDT" zeroPosTicked hmem2 rfl,
    flat_position_handling.2.2.2 [zeroPosRaw, buyPosRaw] "BTCUSDT"
      (parseRestPosition buyPosRaw) hfind⟩

end RefinedEngine
